import Mathlib

/-
Verification development for the process supervision subsystem of the
`allegory` game engine (src/process.go, src/state.go).

The Go code is shallowly embedded as an executable trace semantics:
every run of `RunProcess` produces a list of observable events, in the
order the corresponding operations occur in the source.  Concurrency is
sequentialized along the happens-before edges the code guarantees: the
supervisor goroutine's body is emitted after registration, and a chained
successor's whole trace is emitted between the predecessor's completion
callback and the predecessor's deferred deregistration (the deferred
function of process.go:111-122 runs only after `RunProcess(next)` at
process.go:168 has returned, and `RunProcess(next)` registers the
successor synchronously before returning).
-/

set_option linter.unusedVariables false

namespace Allegory

/-- Messages that can travel through a process's mailbox channel
(`chan interface{}`).  The Go code distinguishes the pointer values
`*quit` and `*tick` (process.go:132,136) from everything else; the
non-pointer struct values `quit{}` and `tick{}` (as sent by
state.go:42) are distinct messages that do NOT match those cases. -/
inductive Msg where
  | quitPtr
  | tickPtr
  | quitValue
  | tickValue
  | app (payload : Nat)
deriving DecidableEq

/-- The three kinds of message recognised by the supervisor loop's
type switch (process.go:131-149). -/
inductive MsgKind where
  | quit
  | tick
  | application
deriving DecidableEq

/-- Embeds the type switch `switch msg := <-ch; msg.(type)` of
process.go:131: only the pointer type `*quit` is the Quit case, only
`*tick` is the Tick case, everything else falls to `default`. -/
def classify : Msg → MsgKind
  | .quitPtr => .quit
  | .tickPtr => .tick
  | .quitValue => .application
  | .tickValue => .application
  | .app _ => .application

/-- Behaviour of one user-supplied `Process` implementation
(process.go:9-34), described by data so that runs are executable:
`initErr` is the result of `InitProcess()` (`none` = success);
`tickScript` gives the result of the n-th call to `Tick()`
(a `(bool, error)` pair, `none` = nil error);
`handleScript` gives the error result of the n-th call to
`HandleMessage`;
`baseProcess` models the reflective lookup of an embedded
`BaseProcess` value (process.go:154-164): `none` = no such field,
`some none` = field present with nil `OnComplete`, `some (some cb)` =
field present with the non-nil callback identified by `cb`;
`continuer` is whether the dynamic type implements `ProcessContinuer`
(process.go:47-51). -/
structure ProcBody where
  initErr : Option Nat
  tickScript : List (Bool × Option Nat)
  handleScript : List (Option Nat)
  baseProcess : Option (Option Nat)
  continuer : Bool
deriving DecidableEq

/-- A process together with the (statically described) chain of
successors its `NextProcess()` method would return: `last b` is a
process whose `NextProcess()` returns nil (or which does not implement
`ProcessContinuer` at all, when `b.continuer = false`); `chain b n`
is a process whose `NextProcess()` returns the process described
by `n`. -/
inductive ProcDesc where
  | last (b : ProcBody)
  | chain (b : ProcBody) (n : ProcDesc)
deriving DecidableEq

/-- The body (own behaviour) of a process description. -/
def ProcDesc.body : ProcDesc → ProcBody
  | .last b => b
  | .chain b _ => b

/-- What `NextProcess()` returns: `none` models nil. -/
def ProcDesc.next : ProcDesc → Option ProcDesc
  | .last _ => none
  | .chain _ n => some n

/-- Observable events of a run.  Registry mutations record whether the
source performs them while holding `_processMutex`: the `_messengers`
map is written at process.go:105 and deleted at process.go:120, both
outside the critical section, while the `_processes` slice is appended
at process.go:107 and filtered at process.go:113-119, both inside it. -/
inductive Event where
  | runCalled (pid : Nat)
  | initCalled (pid : Nat)
  | initFailedDiag (pid : Nat)
  | registerMessenger (pid : Nat) (locked : Bool)
  | registerProcess (pid : Nat) (locked : Bool)
  | deliver (pid : Nat) (m : Msg)
  | tickCalled (pid : Nat)
  | handleCalled (pid : Nat) (m : Msg)
  | errDiag (pid : Nat)
  | cleanupCalled (pid : Nat)
  | onCompleteCalled (pid : Nat) (cb : Nat)
  | deregisterProcess (pid : Nat) (locked : Bool)
  | deregisterMessenger (pid : Nat) (locked : Bool)
  | closeChan (pid : Nat)
deriving DecidableEq

/-- The process a given event belongs to. -/
def Event.pid : Event → Nat
  | .runCalled p => p
  | .initCalled p => p
  | .initFailedDiag p => p
  | .registerMessenger p _ => p
  | .registerProcess p _ => p
  | .deliver p _ => p
  | .tickCalled p => p
  | .handleCalled p _ => p
  | .errDiag p => p
  | .cleanupCalled p => p
  | .onCompleteCalled p _ => p
  | .deregisterProcess p _ => p
  | .deregisterMessenger p _ => p
  | .closeChan p => p

/-- Why the supervisor loop of process.go:130-150 exited: a `*quit`
message, `Tick()` returning false with nil error, `Tick()` returning a
non-nil error, or `HandleMessage` returning a non-nil error. -/
inductive ExitReason where
  | quit
  | tickFalse
  | tickErr
  | handleErr
deriving DecidableEq

/-- Result of running the supervisor loop on a finite list of delivered
messages: the events it emitted, why it exited (`none` when the message
list was exhausted while the process was still alive, i.e. the goroutine
is blocked on `<-ch`), the final value of the `carryOn` variable, and
the number of `Tick()` and `HandleMessage` calls made so far. -/
structure LoopOut where
  events : List Event
  reason : Option ExitReason
  carryOn : Bool
  tickCount : Nat
  handleCount : Nat
deriving DecidableEq

/-- Result of the `tc`-th call to `Tick()` under the behaviour
script (beyond the script the process behaves like `BaseProcess.Tick`,
process.go:42). -/
def tickResult (b : ProcBody) (tc : Nat) : Bool × Option Nat :=
  b.tickScript.getD tc (false, none)

/-- Result of the `hc`-th call to `HandleMessage` under the behaviour
script (beyond the script the process behaves like
`BaseProcess.HandleMessage`, process.go:41). -/
def handleResult (b : ProcBody) (hc : Nat) : Option Nat :=
  b.handleScript.getD hc none

/-- The supervisor loop of process.go:130-150, driven by the list of
messages delivered to the channel.  `tc` and `hc` count the `Tick()`
and `HandleMessage` calls made so far (indexing the behaviour scripts).
The `alive` and `carryOn` variables of the source are represented by
recursion structure and the `carryOn` field: the loop recurses exactly
while `alive` stays true, and every exit records the reason. -/
def supLoopAux (b : ProcBody) (pid : Nat) : Nat → Nat → List Msg → LoopOut
  | tc, hc, [] => ⟨[], none, true, tc, hc⟩
  | tc, hc, m :: ms =>
    match classify m with
    | .quit => ⟨[.deliver pid m], some .quit, false, tc, hc⟩
    | .tick =>
      match tickResult b tc with
      | (_, some _) =>
        ⟨[.deliver pid m, .tickCalled pid, .errDiag pid], some .tickErr, false, tc, hc⟩
      | (true, none) =>
        let out := supLoopAux b pid (tc + 1) hc ms
        ⟨.deliver pid m :: .tickCalled pid :: out.events, out.reason, out.carryOn,
          out.tickCount, out.handleCount⟩
      | (false, none) =>
        ⟨[.deliver pid m, .tickCalled pid], some .tickFalse, true, tc, hc⟩
    | .application =>
      match handleResult b hc with
      | some _ =>
        ⟨[.deliver pid m, .handleCalled pid m, .errDiag pid], some .handleErr, false, tc, hc⟩
      | none =>
        let out := supLoopAux b pid tc (hc + 1) ms
        ⟨.deliver pid m :: .handleCalled pid m :: out.events, out.reason, out.carryOn,
          out.tickCount, out.handleCount⟩

/-- The supervisor loop started with fresh counters, as the goroutine
of process.go:110 does. -/
def supLoop (b : ProcBody) (pid : Nat) (msgs : List Msg) : LoopOut :=
  supLoopAux b pid 0 0 msgs

/-- Events of the reflective completion-callback lookup of
process.go:154-164: the callback is invoked exactly when the process
value carries an embedded `BaseProcess` whose `OnComplete` is
non-nil. -/
def onCompleteEvents (b : ProcBody) (pid : Nat) : List Event :=
  match b.baseProcess with
  | some (some cb) => [.onCompleteCalled pid cb]
  | _ => []

/-- Events of the deferred function of process.go:111-122, in source
order: remove from `_processes` under the mutex, then delete from
`_messengers` after unlocking, then close the channel. -/
def deferEvents (pid : Nat) : List Event :=
  [.deregisterProcess pid true, .deregisterMessenger pid false, .closeChan pid]

/-- Registration events of process.go:104-108 preceded by the entry
into `RunProcess` and the successful `InitProcess()` call: the
`_messengers` map write happens before the mutex is taken, the
`_processes` append inside the critical section. -/
def entryEvents (pid : Nat) : List Event :=
  [.runCalled pid, .initCalled pid, .registerMessenger pid false, .registerProcess pid true]

/-- Events after the supervisor loop stopped (process.go:152-170): if
the loop never exited (the goroutine is blocked in `<-ch`), nothing
more happens; otherwise `CleanupProcess()` runs, then the completion
callback, then the successor trace `chainTr`, then the deferred
deregistration. -/
def afterLoopEvents (b : ProcBody) (pid : Nat) (reason : Option ExitReason)
    (chainTr : List Event) : List Event :=
  match reason with
  | none => []
  | some _ => .cleanupCalled pid :: (onCompleteEvents b pid ++ chainTr ++ deferEvents pid)

/-- One invocation of `RunProcess` (process.go:98-172) minus the
recursive successor call, whose trace is supplied as `chainTr`.
Order follows the source: `InitProcess()` first (early return on
error with a stderr diagnostic, process.go:99-102); then registration;
then the goroutine's loop; then `afterLoopEvents`. -/
def runBody (b : ProcBody) (pid : Nat) (msgs : List Msg) (chainTr : List Event) : List Event :=
  match b.initErr with
  | some _ => [.runCalled pid, .initCalled pid, .initFailedDiag pid]
  | none =>
    entryEvents pid ++ (supLoopAux b pid 0 0 msgs).events ++
      afterLoopEvents b pid (supLoopAux b pid 0 0 msgs).reason chainTr

/-- Trace semantics of `RunProcess` (process.go:98-172).  `pid`
identifies the process (successors get `pid + 1`); `sched` supplies the
list of messages delivered to each mailbox along the chain (head for
this process, tail for its successors).  The successor is run exactly
under the source's condition `carryOn && ok` with a non-nil
`NextProcess()` result (process.go:166-169). -/
def RunProcess : ProcDesc → Nat → List (List Msg) → List Event
  | .last b, pid, sched => runBody b pid (sched.headD []) []
  | .chain b n, pid, sched =>
    runBody b pid (sched.headD [])
      (if (supLoopAux b pid 0 0 (sched.headD [])).carryOn && b.continuer then
        RunProcess n (pid + 1) sched.tail
      else [])

/-- The message `Close` (process.go:83-85) sends: the pointer value
`&quit\x7b\x7d`. -/
def closeMsg : Msg := .quitPtr

/-- The message `NewStateNow` (state.go:42) broadcasts via
`NotifyAllProcesses(quit\x7b\x7d)`: the non-pointer struct value. -/
def newStateNowMsg : Msg := .quitValue

/-- Contribution of an event to the size of the `_processes`
collection, which is what the drain barriers of state.go:32 and
state.go:43 poll. -/
def regDelta : Event → Int
  | .registerProcess _ _ => 1
  | .deregisterProcess _ _ => -1
  | _ => 0

/-- Size of the `_processes` collection after the events `tr`,
starting from `c`. -/
def countAfter (c : Int) (tr : List Event) : Int :=
  tr.foldl (fun acc e => acc + regDelta e) c

/-- Whether an event mutates the Registry's shared state (the
`_processes` collection or the `_messengers` map). -/
def isRegistryMutation : Event → Bool
  | .registerMessenger _ _ => true
  | .registerProcess _ _ => true
  | .deregisterProcess _ _ => true
  | .deregisterMessenger _ _ => true
  | _ => false

/-- Whether an event mutates the `_processes` ordered collection. -/
def isProcessesMutation : Event → Bool
  | .registerProcess _ _ => true
  | .deregisterProcess _ _ => true
  | _ => false

/-- Whether an event mutates the `_messengers` map. -/
def isMessengersMutation : Event → Bool
  | .registerMessenger _ _ => true
  | .deregisterMessenger _ _ => true
  | _ => false

/-- Whether a registry mutation is performed while `_processMutex`
is held. -/
def underLock : Event → Bool
  | .registerMessenger _ l => l
  | .registerProcess _ l => l
  | .deregisterProcess _ l => l
  | .deregisterMessenger _ l => l
  | _ => false

/-- Whether an event is one the supervisor loop itself can emit
(a message receipt, a `Tick()` or `HandleMessage` call, or an error
diagnostic). -/
def isLoopEvent : Event → Bool
  | .deliver _ _ => true
  | .tickCalled _ => true
  | .handleCalled _ _ => true
  | .errDiag _ => true
  | _ => false

/-- A process behaving like a bare `BaseProcess` (process.go:40-43):
`InitProcess` returns nil, `HandleMessage` returns nil, `Tick` returns
`(false, nil)` (modelled by the empty scripts and their defaults), an
embedded `BaseProcess` with nil `OnComplete`, and no
`ProcessContinuer` implementation. -/
def baseLikeBody : ProcBody := ⟨none, [], [], some none, false⟩

/-- The successor trace a run appends: non-empty exactly when the
source's condition `carryOn && ok` holds and `NextProcess()` is
non-nil (process.go:166-169). -/
def chainTrOf : ProcDesc → Nat → List (List Msg) → List Event
  | .last _, _, _ => []
  | .chain b n, pid, sched =>
    if (supLoopAux b pid 0 0 (sched.headD [])).carryOn && b.continuer then
      RunProcess n (pid + 1) sched.tail
    else []

/-- A process whose first `Tick()` returns `(false, nil)` and which
names a `BaseProcess`-like successor; used as a concrete chain
hand-off witness. -/
def dChainEx : ProcDesc := .chain ⟨none, [(false, none)], [], none, true⟩ (.last baseLikeBody)

/-- A mailbox channel: whether it has been closed, and the messages
written to it so far. -/
structure Mailbox where
  isClosed : Bool
  pending : List Msg
deriving DecidableEq

/-- The Registry's shared state: the `_messengers` map (as an
association list keyed by process id) and the `_processes`
collection. -/
structure Registry where
  messengers : List (Nat × Mailbox)
  processes : List Nat
deriving DecidableEq

/-- Lookup `_messengers[p]`: `none` models `ok = false`. -/
def lookupMessenger (r : Registry) (pid : Nat) : Option Mailbox :=
  (r.messengers.find? (fun q => q.1 == pid)).map (fun q => q.2)

/-- Replace the mailbox stored for `pid`. -/
def setMessenger (r : Registry) (pid : Nat) (mb : Mailbox) : Registry :=
  ⟨r.messengers.map (fun q => if q.1 == pid then (q.1, mb) else q), r.processes⟩

/-- A send on a Go channel: sending on a closed channel panics
(modelled by `Except.error`), otherwise the message is written. -/
def chanSend (mb : Mailbox) (m : Msg) : Except Unit Mailbox :=
  if mb.isClosed then .error () else .ok ⟨mb.isClosed, mb.pending ++ [m]⟩

/-- The body of `NotifyProcess` (process.go:54-62) without its
deferred `recover()`: look the mailbox up, and if present attempt the
channel send, which may panic.  The boolean reports whether a message
was actually delivered. -/
def notifyAttempt (r : Registry) (pid : Nat) (m : Msg) : Except Unit (Registry × Bool) :=
  match lookupMessenger r pid with
  | none => .ok (r, false)
  | some mb =>
    match chanSend mb m with
    | .error e => .error e
    | .ok mb2 => .ok (setMessenger r pid mb2, true)

/-- `NotifyProcess` (process.go:54-62): the deferred `recover()` turns
a panic from a closed channel into a silent no-op, so the function is
total and never propagates a failure. -/
def NotifyProcess (r : Registry) (pid : Nat) (m : Msg) : Registry × Bool :=
  match notifyAttempt r pid m with
  | .error _ => (r, false)
  | .ok res => res

/-- `NotifyAllProcesses` (process.go:66-70): send to every process in
the `_processes` collection. -/
def NotifyAllProcesses (r : Registry) (m : Msg) : Registry :=
  r.processes.foldl (fun acc pid => (NotifyProcess acc pid m).1) r

/-- A registry holding one process whose mailbox is already closed. -/
def regClosed : Registry := ⟨[(0, ⟨true, []⟩)], [0]⟩

/-- Every event emitted by the supervisor loop is a loop event of the
process being driven. -/
theorem supLoopAux_events_shape (b : ProcBody) (pid : Nat) :
    ∀ (ms : List Msg) (tc hc : Nat), ∀ e ∈ (supLoopAux b pid tc hc ms).events,
      isLoopEvent e = true ∧ e.pid = pid := by
  intro ms
  induction ms with
  | nil => intro tc hc e he; simp [supLoopAux] at he
  | cons m ms ih =>
    intro tc hc e he
    cases hcm : classify m with
    | quit =>
      simp [supLoopAux, hcm] at he
      subst he; exact ⟨rfl, rfl⟩
    | tick =>
      rcases hts : tickResult b tc with ⟨fl, oe⟩
      cases oe with
      | some v =>
        simp [supLoopAux, hcm, hts] at he
        rcases he with h | h | h <;> subst h <;> exact ⟨rfl, rfl⟩
      | none =>
        cases fl with
        | true =>
          simp [supLoopAux, hcm, hts] at he
          rcases he with h | h | h
          · subst h; exact ⟨rfl, rfl⟩
          · subst h; exact ⟨rfl, rfl⟩
          · exact ih (tc + 1) hc e h
        | false =>
          simp [supLoopAux, hcm, hts] at he
          rcases he with h | h <;> subst h <;> exact ⟨rfl, rfl⟩
    | application =>
      cases hhs : handleResult b hc with
      | some v =>
        simp [supLoopAux, hcm, hhs] at he
        rcases he with h | h | h <;> subst h <;> exact ⟨rfl, rfl⟩
      | none =>
        simp [supLoopAux, hcm, hhs] at he
        rcases he with h | h | h
        · subst h; exact ⟨rfl, rfl⟩
        · subst h; exact ⟨rfl, rfl⟩
        · exact ih tc (hc + 1) e h

/-- Loop events carry no registry mutation. -/
theorem regDelta_of_loopEvent (e : Event) (h : isLoopEvent e = true) : regDelta e = 0 := by
  cases e <;> simp [isLoopEvent] at h <;> rfl

/-- Loop events are not registry mutations at all. -/
theorem not_mutation_of_loopEvent (e : Event) (h : isLoopEvent e = true) :
    isRegistryMutation e = false ∧ isProcessesMutation e = false ∧
      isMessengersMutation e = false := by
  cases e <;> simp [isLoopEvent] at h <;> exact ⟨rfl, rfl, rfl⟩

/-- Folding the registry delta distributes over append. -/
theorem countAfter_append (c : Int) (x y : List Event) :
    countAfter c (x ++ y) = countAfter (countAfter c x) y := by
  simp [countAfter, List.foldl_append]

/-- The base count is an additive offset. -/
theorem countAfter_shift (c : Int) (tr : List Event) :
    countAfter c tr = c + countAfter 0 tr := by
  induction tr generalizing c with
  | nil => simp [countAfter]
  | cons e tr ih =>
    simp only [countAfter, List.foldl_cons] at *
    rw [ih (c + regDelta e), ih (0 + regDelta e)]
    ring

/-- A list of delta-free events leaves the count unchanged. -/
theorem countAfter_of_zero (c : Int) (tr : List Event)
    (h : ∀ e ∈ tr, regDelta e = 0) : countAfter c tr = c := by
  induction tr generalizing c with
  | nil => rfl
  | cons e tr ih =>
    simp only [countAfter, List.foldl_cons]
    rw [h e (List.mem_cons_self e tr)]
    simpa using ih (c + 0) (fun x hx => h x (List.mem_cons_of_mem e hx))

/-- Taking a prefix commutes with counting across an append. -/
theorem countAfter_take_append (c : Int) (x y : List Event) (k : Nat) :
    countAfter c ((x ++ y).take k) =
      countAfter (countAfter c (x.take k)) (y.take (k - x.length)) := by
  rw [List.take_append_eq_append_take, countAfter_append]

/-- If the loop is still alive after its input ran out, `carryOn` has
never been cleared. -/
theorem supLoopAux_carryOn_of_none (b : ProcBody) (pid : Nat) :
    ∀ (ms : List Msg) (tc hc : Nat),
      (supLoopAux b pid tc hc ms).reason = none →
      (supLoopAux b pid tc hc ms).carryOn = true := by
  intro ms
  induction ms with
  | nil => intro tc hc _; rfl
  | cons m ms ih =>
    intro tc hc hr
    cases hcm : classify m with
    | quit => simp [supLoopAux, hcm] at hr
    | tick =>
      rcases hts : tickResult b tc with ⟨fl, oe⟩
      cases oe with
      | some v => simp [supLoopAux, hcm, hts] at hr
      | none =>
        cases fl with
        | true =>
          simp only [supLoopAux, hcm, hts] at hr ⊢
          exact ih (tc + 1) hc hr
        | false => simp [supLoopAux, hcm, hts] at hr
    | application =>
      cases hhs : handleResult b hc with
      | some v => simp [supLoopAux, hcm, hhs] at hr
      | none =>
        simp only [supLoopAux, hcm, hhs] at hr ⊢
        exact ih tc (hc + 1) hr

/-- The `carryOn` variable is true at loop exit exactly when the exit
was a normal `Tick()`-returned-false stop (process.go:124-150). -/
theorem supLoopAux_carryOn_iff (b : ProcBody) (pid : Nat) :
    ∀ (ms : List Msg) (tc hc : Nat) (r : ExitReason),
      (supLoopAux b pid tc hc ms).reason = some r →
      ((supLoopAux b pid tc hc ms).carryOn = true ↔ r = .tickFalse) := by
  intro ms
  induction ms with
  | nil => intro tc hc r hr; simp [supLoopAux] at hr
  | cons m ms ih =>
    intro tc hc r hr
    cases hcm : classify m with
    | quit =>
      simp [supLoopAux, hcm] at hr ⊢
      subst hr; simp
    | tick =>
      rcases hts : tickResult b tc with ⟨fl, oe⟩
      cases oe with
      | some v =>
        simp [supLoopAux, hcm, hts] at hr ⊢
        subst hr; simp
      | none =>
        cases fl with
        | true =>
          simp only [supLoopAux, hcm, hts] at hr ⊢
          exact ih (tc + 1) hc r hr
        | false =>
          simp [supLoopAux, hcm, hts] at hr ⊢
          subst hr; simp
    | application =>
      cases hhs : handleResult b hc with
      | some v =>
        simp [supLoopAux, hcm, hhs] at hr ⊢
        subst hr; simp
      | none =>
        simp only [supLoopAux, hcm, hhs] at hr ⊢
        exact ih tc (hc + 1) r hr

/-- Feeding more messages to a loop that is still alive continues it
with the counters it reached. -/
theorem supLoopAux_append (b : ProcBody) (pid : Nat) :
    ∀ (pre more : List Msg) (tc hc : Nat),
      (supLoopAux b pid tc hc pre).reason = none →
      supLoopAux b pid tc hc (pre ++ more) =
        ⟨(supLoopAux b pid tc hc pre).events ++
            (supLoopAux b pid (supLoopAux b pid tc hc pre).tickCount
              (supLoopAux b pid tc hc pre).handleCount more).events,
          (supLoopAux b pid (supLoopAux b pid tc hc pre).tickCount
            (supLoopAux b pid tc hc pre).handleCount more).reason,
          (supLoopAux b pid (supLoopAux b pid tc hc pre).tickCount
            (supLoopAux b pid tc hc pre).handleCount more).carryOn,
          (supLoopAux b pid (supLoopAux b pid tc hc pre).tickCount
            (supLoopAux b pid tc hc pre).handleCount more).tickCount,
          (supLoopAux b pid (supLoopAux b pid tc hc pre).tickCount
            (supLoopAux b pid tc hc pre).handleCount more).handleCount⟩ := by
  intro pre
  induction pre with
  | nil => intro more tc hc _; simp [supLoopAux]
  | cons m pre ih =>
    intro more tc hc hr
    cases hcm : classify m with
    | quit => simp [supLoopAux, hcm] at hr
    | tick =>
      rcases hts : tickResult b tc with ⟨fl, oe⟩
      cases oe with
      | some v => simp [supLoopAux, hcm, hts] at hr
      | none =>
        cases fl with
        | true =>
          simp only [supLoopAux, hcm, hts, List.cons_append, List.append_eq] at hr ⊢
          rw [ih more (tc + 1) hc hr]
        | false => simp [supLoopAux, hcm, hts] at hr
    | application =>
      cases hhs : handleResult b hc with
      | some v => simp [supLoopAux, hcm, hhs] at hr
      | none =>
        simp only [supLoopAux, hcm, hhs, List.cons_append, List.append_eq] at hr ⊢
        rw [ih more tc (hc + 1) hr]

/-- Membership in the post-loop events implies one of four shapes. -/
theorem mem_afterLoopEvents (b : ProcBody) (pid : Nat) (reason : Option ExitReason)
    (chainTr : List Event) (e : Event) (he : e ∈ afterLoopEvents b pid reason chainTr) :
    e = .cleanupCalled pid ∨ (∃ cb, e = .onCompleteCalled pid cb) ∨ e ∈ chainTr ∨
      e ∈ deferEvents pid := by
  cases reason with
  | none => simp [afterLoopEvents] at he
  | some r =>
    simp only [afterLoopEvents, List.mem_cons, List.mem_append] at he
    rcases he with h | h
    · exact Or.inl h
    rcases h with (h | h) | h
    · refine Or.inr (Or.inl ?_)
      cases hbp : b.baseProcess with
      | none => simp [onCompleteEvents, hbp] at h
      | some oc =>
        cases oc with
        | none => simp [onCompleteEvents, hbp] at h
        | some cb =>
          simp [onCompleteEvents, hbp] at h
          exact ⟨cb, h⟩
    · exact Or.inr (Or.inr (Or.inl h))
    · exact Or.inr (Or.inr (Or.inr h))

/-- Membership in a run body trace implies one of the event shapes. -/
theorem mem_runBody (b : ProcBody) (pid : Nat) (msgs : List Msg) (chainTr : List Event)
    (e : Event) (he : e ∈ runBody b pid msgs chainTr) :
    e.pid = pid ∨ e ∈ chainTr := by
  rw [runBody] at he
  cases hinit : b.initErr with
  | some v =>
    rw [hinit] at he
    simp at he
    rcases he with h | h | h <;> subst h <;> exact Or.inl rfl
  | none =>
    rw [hinit] at he
    simp only [List.mem_append] at he
    rcases he with (h | h) | h
    · simp [entryEvents] at h
      rcases h with h | h | h | h <;> subst h <;> exact Or.inl rfl
    · exact Or.inl (supLoopAux_events_shape b pid _ 0 0 e h).2
    · rcases mem_afterLoopEvents b pid _ chainTr e h with h | ⟨cb, h⟩ | h | h
      · subst h; exact Or.inl rfl
      · subst h; exact Or.inl rfl
      · exact Or.inr h
      · simp [deferEvents] at h
        rcases h with h | h | h <;> subst h <;> exact Or.inl rfl

/-- Every event of a run belongs to the root process or to a successor
further down the chain (successor ids only grow). -/
theorem runProcess_pid_le (d : ProcDesc) :
    ∀ (pid : Nat) (sched : List (List Msg)), ∀ e ∈ RunProcess d pid sched,
      pid ≤ e.pid := by
  induction d with
  | last b =>
    intro pid sched e he
    rw [RunProcess] at he
    rcases mem_runBody b pid _ [] e he with h | h
    · omega
    · simp at h
  | chain b n ih =>
    intro pid sched e he
    rw [RunProcess] at he
    rcases mem_runBody b pid _ _ e he with h | h
    · omega
    · by_cases hc : ((supLoopAux b pid 0 0 (sched.headD [])).carryOn && b.continuer) = true
      · rw [if_pos hc] at h
        have := ih (pid + 1) sched.tail e h
        omega
      · rw [if_neg hc] at h
        simp at h

/-- Completion-callback events carry no registry mutation. -/
theorem regDelta_onComplete (b : ProcBody) (pid : Nat) :
    ∀ e ∈ onCompleteEvents b pid, regDelta e = 0 := by
  intro e he
  cases hbp : b.baseProcess with
  | none => simp [onCompleteEvents, hbp] at he
  | some oc =>
    cases oc with
    | none => simp [onCompleteEvents, hbp] at he
    | some cb => simp [onCompleteEvents, hbp] at he; subst he; rfl

/-- Counting over an append whose first part is delta-free. -/
theorem countAfter_take_append_zero (x y : List Event)
    (hx : ∀ e ∈ x, regDelta e = 0) (k : Nat) :
    countAfter 0 ((x ++ y).take k) = countAfter 0 (y.take (k - x.length)) := by
  rw [countAfter_take_append]
  rw [countAfter_of_zero 0 (x.take k) (fun e he => hx e (List.take_subset k x he))]

/-- Prefixes of the deregistration block never lower the count by more
than the one removal it performs. -/
theorem defer_take_bound (pid : Nat) (k : Nat) :
    -1 ≤ countAfter 0 ((deferEvents pid).take k) := by
  rcases k with _ | _ | _ | k <;>
    simp [deferEvents, countAfter, regDelta, List.take_succ_cons]

/-- Prefixes of the entry block keep the count at 0 or 1, and after the
whole block (the process is registered) it is exactly 1. -/
theorem entry_take_bound (pid : Nat) (k : Nat) :
    0 ≤ countAfter 0 ((entryEvents pid).take k) ∧
      (4 ≤ k → countAfter 0 ((entryEvents pid).take k) = 1) := by
  rcases k with _ | _ | _ | _ | k <;>
    simp [entryEvents, countAfter, regDelta, List.take_succ_cons]

/-- Prefixes of the post-loop events lower the count by at most 1,
provided the successor trace never goes negative. -/
theorem afterLoop_take_bound (b : ProcBody) (pid : Nat) (reason : Option ExitReason)
    (chainTr : List Event) (hchain : ∀ k, 0 ≤ countAfter 0 (chainTr.take k)) (k : Nat) :
    -1 ≤ countAfter 0 ((afterLoopEvents b pid reason chainTr).take k) := by
  cases reason with
  | none => simp [afterLoopEvents, countAfter]
  | some r =>
    have hzf : ∀ e ∈ Event.cleanupCalled pid :: onCompleteEvents b pid, regDelta e = 0 := by
      intro e he
      rcases List.mem_cons.mp he with h | h
      · subst h; rfl
      · exact regDelta_onComplete b pid e h
    have hshape : afterLoopEvents b pid (some r) chainTr =
        (Event.cleanupCalled pid :: onCompleteEvents b pid) ++ (chainTr ++ deferEvents pid) := by
      simp [afterLoopEvents]
    rw [hshape, countAfter_take_append_zero _ _ hzf, countAfter_take_append,
      countAfter_shift]
    have h1 := hchain (k - (Event.cleanupCalled pid :: onCompleteEvents b pid).length)
    have h2 := defer_take_bound pid
      (k - (Event.cleanupCalled pid :: onCompleteEvents b pid).length - chainTr.length)
    omega

/-- No prefix of a run body's trace ever drives the count below the
value it started from, provided the successor trace has the same
property. -/
theorem runBody_take_nonneg (b : ProcBody) (pid : Nat) (msgs : List Msg)
    (chainTr : List Event) (hchain : ∀ k, 0 ≤ countAfter 0 (chainTr.take k)) (k : Nat) :
    0 ≤ countAfter 0 ((runBody b pid msgs chainTr).take k) := by
  rw [runBody]
  cases hinit : b.initErr with
  | some v =>
    have hz : ∀ e ∈ [Event.runCalled pid, Event.initCalled pid, Event.initFailedDiag pid],
        regDelta e = 0 := by
      intro e he
      simp at he
      rcases he with h | h | h <;> subst h <;> rfl
    rw [countAfter_of_zero 0 _ (fun e he => hz e (List.take_subset k _ he))]
  | none =>
    have hloop : ∀ e ∈ (supLoopAux b pid 0 0 msgs).events, regDelta e = 0 :=
      fun e he => regDelta_of_loopEvent e (supLoopAux_events_shape b pid _ 0 0 e he).1
    rw [List.append_assoc, countAfter_take_append, countAfter_shift,
      countAfter_take_append_zero _ _ hloop]
    have h1 := entry_take_bound pid k
    have h2 := afterLoop_take_bound b pid (supLoopAux b pid 0 0 msgs).reason chainTr hchain
      (k - (entryEvents pid).length - (supLoopAux b pid 0 0 msgs).events.length)
    rcases Nat.lt_or_ge k 4 with hk | hk
    · have hk4 : k - (entryEvents pid).length = 0 := by simp [entryEvents]; omega
      rw [hk4]
      simpa [countAfter] using h1.1
    · rw [h1.2 hk]
      omega

/-- No prefix of any run's trace has more deregistrations than
registrations: the registry count contributed by the run is always
nonnegative. -/
theorem runProcess_take_nonneg (d : ProcDesc) :
    ∀ (pid : Nat) (sched : List (List Msg)) (k : Nat),
      0 ≤ countAfter 0 ((RunProcess d pid sched).take k) := by
  induction d with
  | last b =>
    intro pid sched k
    rw [RunProcess]
    exact runBody_take_nonneg b pid _ [] (by intro j; simp [countAfter]) k
  | chain b n ih =>
    intro pid sched k
    rw [RunProcess]
    refine runBody_take_nonneg b pid _ _ ?_ k
    intro j
    by_cases hc : ((supLoopAux b pid 0 0 (sched.headD [])).carryOn && b.continuer) = true
    · rw [if_pos hc]; exact ih (pid + 1) sched.tail j
    · rw [if_neg hc]; simp [countAfter]

/-- An event of a foreign process inside a run body's trace must come
from the successor trace, and only after the loop actually exited. -/
theorem mem_chain_part (b : ProcBody) (pid : Nat) (msgs : List Msg) (chainTr : List Event)
    (e : Event) (he : e ∈ runBody b pid msgs chainTr) (hpid : e.pid ≠ pid) :
    b.initErr = none ∧ (supLoopAux b pid 0 0 msgs).reason ≠ none ∧ e ∈ chainTr := by
  rw [runBody] at he
  cases hinit : b.initErr with
  | some v =>
    rw [hinit] at he
    simp at he
    rcases he with h | h | h <;> subst h <;> exact absurd rfl hpid
  | none =>
    rw [hinit] at he
    refine ⟨rfl, ?_⟩
    simp only [List.mem_append] at he
    rcases he with (h | h) | h
    · simp [entryEvents] at h
      rcases h with h | h | h | h <;> subst h <;> exact absurd rfl hpid
    · exact absurd (supLoopAux_events_shape b pid _ 0 0 e h).2 hpid
    · cases hre : (supLoopAux b pid 0 0 msgs).reason with
      | none => rw [hre] at h; simp [afterLoopEvents] at h
      | some r =>
        rw [hre] at h
        refine ⟨Option.some_ne_none r, ?_⟩
        rcases mem_afterLoopEvents b pid _ chainTr e h with h | ⟨cb, h⟩ | h | h
        · subst h; exact absurd rfl hpid
        · subst h; exact absurd rfl hpid
        · exact h
        · simp [deferEvents] at h
          rcases h with h | h | h <;> subst h <;> exact absurd rfl hpid

/-- Every run's trace opens with the `RunProcess` entry for its own
process. -/
theorem runCalled_self_mem (d : ProcDesc) (pid : Nat) (sched : List (List Msg)) :
    Event.runCalled pid ∈ RunProcess d pid sched := by
  cases d <;> rw [RunProcess, runBody] <;> cases hinit : (ProcBody.initErr _) <;>
    simp [entryEvents]

/-- The successor trace is contained in the run body's trace once the
loop has exited. -/
theorem chainTr_subset_runBody (b : ProcBody) (pid : Nat) (msgs : List Msg)
    (chainTr : List Event) (e : Event) (hinit : b.initErr = none) (r : ExitReason)
    (hre : (supLoopAux b pid 0 0 msgs).reason = some r) (he : e ∈ chainTr) :
    e ∈ runBody b pid msgs chainTr := by
  rw [runBody, hinit, hre]
  simp [afterLoopEvents, he]

/-- Characterisation of successor start: the entry event of process
`pid + 1` occurs in the trace of `RunProcess` for process `pid` exactly
when the process initialised, its loop exited normally through
`Tick()` returning false with nil error, it implements
`ProcessContinuer`, and `NextProcess()` returned non-nil. -/
theorem runCalled_succ_mem_iff (d : ProcDesc) (pid : Nat) (sched : List (List Msg)) :
    Event.runCalled (pid + 1) ∈ RunProcess d pid sched ↔
      (d.body.initErr = none ∧
        (supLoopAux d.body pid 0 0 (sched.headD [])).reason = some .tickFalse ∧
        d.body.continuer = true ∧ d.next.isSome = true) := by
  cases d with
  | last b =>
    rw [RunProcess]
    constructor
    · intro he
      rcases mem_runBody b pid _ [] _ he with h | h
      · exact absurd h (by simp [Event.pid])
      · simp at h
    · intro ⟨_, _, _, hn⟩
      simp [ProcDesc.next] at hn
  | chain b n =>
    rw [RunProcess]
    constructor
    · intro he
      have hpid : (Event.runCalled (pid + 1)).pid ≠ pid := by simp [Event.pid]
      obtain ⟨hinit, hrs, hmem⟩ := mem_chain_part b pid _ _ _ he hpid
      by_cases hc : ((supLoopAux b pid 0 0 (sched.headD [])).carryOn && b.continuer) = true
      · rcases Bool.and_eq_true _ _ |>.mp hc with ⟨hco, hcont⟩
        obtain ⟨r, hr⟩ := Option.ne_none_iff_exists.mp hrs
        have hiff := supLoopAux_carryOn_iff b pid (sched.headD []) 0 0 r hr.symm
        have : r = .tickFalse := hiff.mp hco
        subst this
        exact ⟨hinit, hr.symm, hcont, rfl⟩
      · rw [if_neg hc] at hmem
        simp at hmem
    · intro ⟨hinit, hrs, hcont, _⟩
      simp only [ProcDesc.body] at hinit hrs hcont
      have hco : (supLoopAux b pid 0 0 (sched.headD [])).carryOn = true :=
        (supLoopAux_carryOn_iff b pid (sched.headD []) 0 0 .tickFalse hrs).mpr rfl
      have hc : ((supLoopAux b pid 0 0 (sched.headD [])).carryOn && b.continuer) = true := by
        rw [hco, hcont]; rfl
      refine chainTr_subset_runBody b pid _ _ _ hinit .tickFalse hrs ?_
      rw [if_pos hc]
      exact runCalled_self_mem n (pid + 1) sched.tail

/-- Every run is its body run against the successor trace the source
would produce. -/
theorem RunProcess_eq_runBody (d : ProcDesc) (pid : Nat) (sched : List (List Msg)) :
    RunProcess d pid sched = runBody d.body pid (sched.headD []) (chainTrOf d pid sched) := by
  cases d <;> rfl

/-- The only events the completion-callback block can emit. -/
theorem mem_onCompleteEvents (b : ProcBody) (pid : Nat) (e : Event)
    (he : e ∈ onCompleteEvents b pid) : ∃ cb, e = .onCompleteCalled pid cb := by
  cases hbp : b.baseProcess with
  | none => simp [onCompleteEvents, hbp] at he
  | some oc =>
    cases oc with
    | none => simp [onCompleteEvents, hbp] at he
    | some cb =>
      simp [onCompleteEvents, hbp] at he
      exact ⟨cb, he⟩

/-- Complete enumeration of the shapes an event in a run body's trace
can take. -/
theorem mem_runBody_cases (b : ProcBody) (pid : Nat) (msgs : List Msg)
    (chainTr : List Event) (e : Event) (he : e ∈ runBody b pid msgs chainTr) :
    e = .runCalled pid ∨ e = .initCalled pid ∨ e = .initFailedDiag pid ∨
      e = .registerMessenger pid false ∨ e = .registerProcess pid true ∨
      isLoopEvent e = true ∨ e = .cleanupCalled pid ∨
      (∃ cb, e = .onCompleteCalled pid cb) ∨ e ∈ chainTr ∨
      e = .deregisterProcess pid true ∨ e = .deregisterMessenger pid false ∨
      e = .closeChan pid := by
  rw [runBody] at he
  cases hinit : b.initErr with
  | some v =>
    rw [hinit] at he
    simp at he
    tauto
  | none =>
    rw [hinit] at he
    simp only [List.mem_append] at he
    rcases he with (h | h) | h
    · simp [entryEvents] at h
      tauto
    · exact Or.inr (Or.inr (Or.inr (Or.inr (Or.inr (Or.inl
        (supLoopAux_events_shape b pid _ 0 0 e h).1)))))
    · rcases mem_afterLoopEvents b pid _ chainTr e h with h | h | h | h
      · tauto
      · tauto
      · tauto
      · simp [deferEvents] at h
        tauto

/-- Lock discipline over a whole run: `_processes` mutations happen
inside the critical section, `_messengers` mutations outside it. -/
theorem lock_discipline (d : ProcDesc) :
    ∀ (pid : Nat) (sched : List (List Msg)), ∀ e ∈ RunProcess d pid sched,
      (isProcessesMutation e = true → underLock e = true) ∧
      (isMessengersMutation e = true → underLock e = false) := by
  induction d with
  | last b =>
    intro pid sched e he
    rw [RunProcess] at he
    rcases mem_runBody_cases b pid _ [] e he with
      h | h | h | h | h | h | h | ⟨cb, h⟩ | h | h | h | h
    · subst h; exact ⟨fun hx => by simp [isProcessesMutation] at hx,
        fun hx => by simp [isMessengersMutation] at hx⟩
    · subst h; exact ⟨fun hx => by simp [isProcessesMutation] at hx,
        fun hx => by simp [isMessengersMutation] at hx⟩
    · subst h; exact ⟨fun hx => by simp [isProcessesMutation] at hx,
        fun hx => by simp [isMessengersMutation] at hx⟩
    · subst h; exact ⟨fun hx => by simp [isProcessesMutation] at hx, fun _ => rfl⟩
    · subst h; exact ⟨fun _ => rfl, fun hx => by simp [isMessengersMutation] at hx⟩
    · rcases not_mutation_of_loopEvent e h with ⟨_, h2, h3⟩
      exact ⟨fun hx => absurd hx (by rw [h2]; simp),
        fun hx => absurd hx (by rw [h3]; simp)⟩
    · subst h; exact ⟨fun hx => by simp [isProcessesMutation] at hx,
        fun hx => by simp [isMessengersMutation] at hx⟩
    · subst h; exact ⟨fun hx => by simp [isProcessesMutation] at hx,
        fun hx => by simp [isMessengersMutation] at hx⟩
    · simp at h
    · subst h; exact ⟨fun _ => rfl, fun hx => by simp [isMessengersMutation] at hx⟩
    · subst h; exact ⟨fun hx => by simp [isProcessesMutation] at hx, fun _ => rfl⟩
    · subst h; exact ⟨fun hx => by simp [isProcessesMutation] at hx,
        fun hx => by simp [isMessengersMutation] at hx⟩
  | chain b n ih =>
    intro pid sched e he
    rw [RunProcess] at he
    rcases mem_runBody_cases b pid _ _ e he with
      h | h | h | h | h | h | h | ⟨cb, h⟩ | h | h | h | h
    · subst h; exact ⟨fun hx => by simp [isProcessesMutation] at hx,
        fun hx => by simp [isMessengersMutation] at hx⟩
    · subst h; exact ⟨fun hx => by simp [isProcessesMutation] at hx,
        fun hx => by simp [isMessengersMutation] at hx⟩
    · subst h; exact ⟨fun hx => by simp [isProcessesMutation] at hx,
        fun hx => by simp [isMessengersMutation] at hx⟩
    · subst h; exact ⟨fun hx => by simp [isProcessesMutation] at hx, fun _ => rfl⟩
    · subst h; exact ⟨fun _ => rfl, fun hx => by simp [isMessengersMutation] at hx⟩
    · rcases not_mutation_of_loopEvent e h with ⟨_, h2, h3⟩
      exact ⟨fun hx => absurd hx (by rw [h2]; simp),
        fun hx => absurd hx (by rw [h3]; simp)⟩
    · subst h; exact ⟨fun hx => by simp [isProcessesMutation] at hx,
        fun hx => by simp [isMessengersMutation] at hx⟩
    · subst h; exact ⟨fun hx => by simp [isProcessesMutation] at hx,
        fun hx => by simp [isMessengersMutation] at hx⟩
    · by_cases hc : ((supLoopAux b pid 0 0 (sched.headD [])).carryOn && b.continuer) = true
      · rw [if_pos hc] at h
        exact ih (pid + 1) sched.tail e h
      · rw [if_neg hc] at h
        simp at h
    · subst h; exact ⟨fun _ => rfl, fun hx => by simp [isMessengersMutation] at hx⟩
    · subst h; exact ⟨fun hx => by simp [isProcessesMutation] at hx, fun _ => rfl⟩
    · subst h; exact ⟨fun hx => by simp [isProcessesMutation] at hx,
        fun hx => by simp [isMessengersMutation] at hx⟩

/-- Once the loop has exited, `CleanupProcess()` appears in the
run's trace. -/
theorem cleanup_mem_runProcess (d : ProcDesc) (pid : Nat) (sched : List (List Msg))
    (r : ExitReason) (hinit : d.body.initErr = none)
    (hre : (supLoopAux d.body pid 0 0 (sched.headD [])).reason = some r) :
    Event.cleanupCalled pid ∈ RunProcess d pid sched := by
  rw [RunProcess_eq_runBody, runBody, hinit, hre]
  simp [afterLoopEvents]

/-- The successor trace never mentions the predecessor's cleanup. -/
theorem cleanup_not_mem_chainTr (d : ProcDesc) (pid : Nat) (sched : List (List Msg)) :
    Event.cleanupCalled pid ∉ chainTrOf d pid sched := by
  cases d with
  | last b => simp [chainTrOf]
  | chain b n =>
    rw [chainTrOf]
    by_cases hc : ((supLoopAux b pid 0 0 (sched.headD [])).carryOn && b.continuer) = true
    · rw [if_pos hc]
      intro hmem
      have := runProcess_pid_le n (pid + 1) sched.tail _ hmem
      simp [Event.pid] at this
    · rw [if_neg hc]; simp

/-- The successor trace never mentions the predecessor's completion
callback. -/
theorem onComplete_not_mem_chainTr (d : ProcDesc) (pid : Nat) (sched : List (List Msg))
    (cb : Nat) : Event.onCompleteCalled pid cb ∉ chainTrOf d pid sched := by
  cases d with
  | last b => simp [chainTrOf]
  | chain b n =>
    rw [chainTrOf]
    by_cases hc : ((supLoopAux b pid 0 0 (sched.headD [])).carryOn && b.continuer) = true
    · rw [if_pos hc]
      intro hmem
      have := runProcess_pid_le n (pid + 1) sched.tail _ hmem
      simp [Event.pid] at this
    · rw [if_neg hc]; simp

/-- Cleanup count and position inside one run body. -/
theorem runBody_cleanup_shape (b : ProcBody) (pid : Nat) (msgs : List Msg)
    (chainTr : List Event) (r : ExitReason) (hinit : b.initErr = none)
    (hre : (supLoopAux b pid 0 0 msgs).reason = some r)
    (hchain : Event.cleanupCalled pid ∉ chainTr) :
    (runBody b pid msgs chainTr).count (.cleanupCalled pid) = 1 ∧
    ∃ pre post, runBody b pid msgs chainTr = pre ++ .cleanupCalled pid :: post ∧
      Event.runCalled (pid + 1) ∉ pre := by
  have hnE : Event.cleanupCalled pid ∉ entryEvents pid := by simp [entryEvents]
  have hnL : Event.cleanupCalled pid ∉ (supLoopAux b pid 0 0 msgs).events := by
    intro hmem
    have := (supLoopAux_events_shape b pid msgs 0 0 _ hmem).1
    simp [isLoopEvent] at this
  have hnOC : Event.cleanupCalled pid ∉ onCompleteEvents b pid := by
    intro hmem
    rcases mem_onCompleteEvents b pid _ hmem with ⟨cb, hcb⟩
    simp at hcb
  have hnD : Event.cleanupCalled pid ∉ deferEvents pid := by simp [deferEvents]
  rw [runBody, hinit, hre]
  constructor
  · simp only [afterLoopEvents, List.count_append, List.count_cons,
      List.count_eq_zero.mpr hnE, List.count_eq_zero.mpr hnL,
      List.count_eq_zero.mpr hnOC, List.count_eq_zero.mpr hnD,
      List.count_eq_zero.mpr hchain]
    simp
  · refine ⟨entryEvents pid ++ (supLoopAux b pid 0 0 msgs).events,
      onCompleteEvents b pid ++ chainTr ++ deferEvents pid, ?_, ?_⟩
    · simp [afterLoopEvents, List.append_assoc]
    · intro hmem
      rcases List.mem_append.mp hmem with h | h
      · simp [entryEvents] at h
      · have := (supLoopAux_events_shape b pid msgs 0 0 _ h).1
        simp [isLoopEvent] at this

/-- Completion-callback count and position inside one run body. -/
theorem runBody_onComplete_shape (b : ProcBody) (pid : Nat) (msgs : List Msg)
    (chainTr : List Event) (cb : Nat) (r : ExitReason) (hinit : b.initErr = none)
    (hbp : b.baseProcess = some (some cb))
    (hre : (supLoopAux b pid 0 0 msgs).reason = some r)
    (hchain : Event.onCompleteCalled pid cb ∉ chainTr) :
    (runBody b pid msgs chainTr).count (.onCompleteCalled pid cb) = 1 ∧
    ∃ pre post, runBody b pid msgs chainTr =
        pre ++ .cleanupCalled pid :: .onCompleteCalled pid cb :: post ∧
      Event.runCalled (pid + 1) ∉ pre := by
  have hnE : Event.onCompleteCalled pid cb ∉ entryEvents pid := by simp [entryEvents]
  have hnL : Event.onCompleteCalled pid cb ∉ (supLoopAux b pid 0 0 msgs).events := by
    intro hmem
    have := (supLoopAux_events_shape b pid msgs 0 0 _ hmem).1
    simp [isLoopEvent] at this
  have hnD : Event.onCompleteCalled pid cb ∉ deferEvents pid := by simp [deferEvents]
  have hoc : onCompleteEvents b pid = [.onCompleteCalled pid cb] := by
    simp [onCompleteEvents, hbp]
  rw [runBody, hinit, hre]
  constructor
  · simp only [afterLoopEvents, hoc, List.count_append, List.count_cons,
      List.count_eq_zero.mpr hnE, List.count_eq_zero.mpr hnL,
      List.count_eq_zero.mpr hnD, List.count_eq_zero.mpr hchain]
    simp
  · refine ⟨entryEvents pid ++ (supLoopAux b pid 0 0 msgs).events,
      chainTr ++ deferEvents pid, ?_, ?_⟩
    · simp [afterLoopEvents, hoc, List.append_assoc]
    · intro hmem
      rcases List.mem_append.mp hmem with h | h
      · simp [entryEvents] at h
      · have := (supLoopAux_events_shape b pid msgs 0 0 _ h).1
        simp [isLoopEvent] at this

/-- Hand-off decomposition at the run-body level: with a normal exit
and a successor trace that itself begins with the successor's entry
block, the successor's `_processes` insertion sits strictly before the
predecessor's removal, and every prefix of the trace from the
predecessor's registration up to (but excluding) its deregistration
keeps the registry count at 1 or more. -/
theorem runBody_handoff (b : ProcBody) (pid : Nat) (msgs : List Msg)
    (chainTr R2 : List Event) (hinit : b.initErr = none)
    (hre : (supLoopAux b pid 0 0 msgs).reason = some .tickFalse)
    (hshape : chainTr = entryEvents (pid + 1) ++ R2)
    (hnn : ∀ k, 0 ≤ countAfter 0 (chainTr.take k)) :
    ∃ A B C,
      runBody b pid msgs chainTr =
        A ++ .registerProcess (pid + 1) true :: (B ++ .deregisterProcess pid true :: C) ∧
      ∀ k, 4 ≤ k → k ≤ A.length + 1 + B.length →
        1 ≤ countAfter 0 ((runBody b pid msgs chainTr).take k) := by
  have htr : runBody b pid msgs chainTr =
      entryEvents pid ++ (supLoopAux b pid 0 0 msgs).events ++
        (Event.cleanupCalled pid ::
          (onCompleteEvents b pid ++ chainTr ++ deferEvents pid)) := by
    rw [runBody, hinit, hre]
    rfl
  have hW : runBody b pid msgs chainTr =
      (entryEvents pid ++
        ((supLoopAux b pid 0 0 msgs).events ++
          (Event.cleanupCalled pid :: (onCompleteEvents b pid ++ chainTr)))) ++
        deferEvents pid := by
    rw [htr]
    simp [List.append_assoc]
  refine ⟨entryEvents pid ++ (supLoopAux b pid 0 0 msgs).events ++
      (Event.cleanupCalled pid ::
        (onCompleteEvents b pid ++
          [Event.runCalled (pid + 1), Event.initCalled (pid + 1),
            Event.registerMessenger (pid + 1) false])),
    R2, [Event.deregisterMessenger pid false, Event.closeChan pid], ?_, ?_⟩
  · rw [htr, hshape]
    simp [entryEvents, deferEvents, List.append_assoc]
  · intro k hk4 hklen
    have hlenW : ((supLoopAux b pid 0 0 msgs).events ++
        (Event.cleanupCalled pid :: (onCompleteEvents b pid ++ chainTr))).length =
        (supLoopAux b pid 0 0 msgs).events.length + 1 +
          (onCompleteEvents b pid).length + (entryEvents (pid + 1)).length + R2.length := by
      simp [hshape]
      omega
    have hklen2 : k ≤ (entryEvents pid ++
        ((supLoopAux b pid 0 0 msgs).events ++
          (Event.cleanupCalled pid :: (onCompleteEvents b pid ++ chainTr)))).length := by
      simp only [List.length_append, hlenW] at *
      simp only [List.length_append, List.length_cons, entryEvents,
        List.length_nil] at hklen ⊢
      omega
    rw [hW, List.take_append_eq_append_take]
    have hz : k - (entryEvents pid ++
        ((supLoopAux b pid 0 0 msgs).events ++
          (Event.cleanupCalled pid :: (onCompleteEvents b pid ++ chainTr)))).length = 0 := by
      omega
    rw [hz, List.take_zero, List.append_nil, countAfter_take_append, countAfter_shift]
    have hE : countAfter 0 ((entryEvents pid).take k) = 1 := (entry_take_bound pid k).2 hk4
    rw [hE]
    have hzf : ∀ e ∈ (supLoopAux b pid 0 0 msgs).events ++
        (Event.cleanupCalled pid :: onCompleteEvents b pid), regDelta e = 0 := by
      intro e he
      rcases List.mem_append.mp he with h | h
      · exact regDelta_of_loopEvent e (supLoopAux_events_shape b pid msgs 0 0 e h).1
      · rcases List.mem_cons.mp h with h | h
        · subst h; rfl
        · exact regDelta_onComplete b pid e h
    have hW2 : (supLoopAux b pid 0 0 msgs).events ++
        (Event.cleanupCalled pid :: (onCompleteEvents b pid ++ chainTr)) =
        ((supLoopAux b pid 0 0 msgs).events ++
          (Event.cleanupCalled pid :: onCompleteEvents b pid)) ++ chainTr := by
      simp [List.append_assoc]
    rw [hW2, countAfter_take_append_zero _ _ hzf]
    have := hnn ((k - (entryEvents pid).length) -
      ((supLoopAux b pid 0 0 msgs).events ++
        (Event.cleanupCalled pid :: onCompleteEvents b pid)).length)
    omega

/-- C2: during a chain hand-off from a normally-terminated process to
a non-nil successor whose initialisation succeeds, the successor is
inserted into `_processes` strictly before the predecessor is removed
(the removal sits in the goroutine's deferred function, which runs only
after `RunProcess(next)` has registered the successor), so every trace
prefix from the predecessor's registration up to its removal shows a
registry count of at least 1: starting from any ambient count
N - 1 >= 0 of other registered processes, the count moves
N -> N + 1 -> N and is never observed as 0 during the hand-off
(`countAfter` is additive in its base, `countAfter_shift`). -/
theorem c2_handoff_registry_never_empty (b : ProcBody) (n : ProcDesc) (pid : Nat)
    (sched : List (List Msg)) (hinit : b.initErr = none)
    (hre : (supLoop b pid (sched.headD [])).reason = some .tickFalse)
    (hcont : b.continuer = true) (hinit2 : n.body.initErr = none) :
    ∃ A B C,
      RunProcess (.chain b n) pid sched =
        A ++ .registerProcess (pid + 1) true :: (B ++ .deregisterProcess pid true :: C) ∧
      ∀ k, 4 ≤ k → k ≤ A.length + 1 + B.length →
        1 ≤ countAfter 0 ((RunProcess (.chain b n) pid sched).take k) := by
  simp only [supLoop] at hre
  have hco : (supLoopAux b pid 0 0 (sched.headD [])).carryOn = true :=
    (supLoopAux_carryOn_iff b pid (sched.headD []) 0 0 .tickFalse hre).mpr rfl
  have hcnd : ((supLoopAux b pid 0 0 (sched.headD [])).carryOn && b.continuer) = true := by
    rw [hco, hcont]; rfl
  have hct : chainTrOf (.chain b n) pid sched = RunProcess n (pid + 1) sched.tail := by
    simp only [chainTrOf]
    rw [if_pos hcnd]
  have hshape : chainTrOf (.chain b n) pid sched =
      entryEvents (pid + 1) ++
        ((supLoopAux n.body (pid + 1) 0 0 (sched.tail.headD [])).events ++
          afterLoopEvents n.body (pid + 1)
            (supLoopAux n.body (pid + 1) 0 0 (sched.tail.headD [])).reason
            (chainTrOf n (pid + 1) sched.tail)) := by
    rw [hct, RunProcess_eq_runBody, runBody, hinit2, List.append_assoc]
  have hnn : ∀ k, 0 ≤ countAfter 0 ((chainTrOf (.chain b n) pid sched).take k) := by
    intro k
    rw [hct]
    exact runProcess_take_nonneg n (pid + 1) sched.tail k
  have hmain := runBody_handoff b pid (sched.headD []) (chainTrOf (.chain b n) pid sched)
    ((supLoopAux n.body (pid + 1) 0 0 (sched.tail.headD [])).events ++
      afterLoopEvents n.body (pid + 1)
        (supLoopAux n.body (pid + 1) 0 0 (sched.tail.headD [])).reason
        (chainTrOf n (pid + 1) sched.tail))
    hinit hre hshape hnn
  rw [RunProcess_eq_runBody]
  exact hmain

/-- Witness for C2 at a concrete two-process hand-off. -/
theorem c2_witness :
    ∃ A B C,
      RunProcess (.chain ⟨none, [(false, none)], [], none, true⟩ (.last baseLikeBody))
          0 [[Msg.tickPtr]] =
        A ++ .registerProcess 1 true :: (B ++ .deregisterProcess 0 true :: C) ∧
      ∀ k, 4 ≤ k → k ≤ A.length + 1 + B.length →
        1 ≤ countAfter 0
          ((RunProcess (.chain ⟨none, [(false, none)], [], none, true⟩ (.last baseLikeBody))
            0 [[Msg.tickPtr]]).take k) :=
  c2_handoff_registry_never_empty ⟨none, [(false, none)], [], none, true⟩
    (.last baseLikeBody) 0 [[Msg.tickPtr]] rfl rfl rfl rfl

/-- A process that fails initialisation with error code 7. -/
def dInitFail : ProcDesc := .last ⟨some 7, [], [], none, false⟩

/-- A process carrying a configured completion callback (id 5). -/
def dOnCompleteEx : ProcDesc := .last ⟨none, [], [], some (some 5), true⟩

/-- C1 (code bug evidence): `NewStateNow` (state.go:41-47) broadcasts
the struct value `quit\x7b\x7d`, not the pointer `&quit\x7b\x7d` that `Close`
sends and that the supervisor's type switch recognises.  Delivered to a
`BaseProcess`-like process, that message is classified as an
application message, forwarded to `HandleMessage`, and the loop stays
alive: no Quit-branch termination, no cleanup, and the registry never
drains, contradicting the claimed (and documented) behaviour.  The
pointer message `Close` sends does exit the loop through the Quit
branch. -/
theorem c1_newStateNow_broadcast_not_recognised :
    newStateNowMsg = Msg.quitValue ∧
    classify newStateNowMsg = .application ∧
    (supLoop baseLikeBody 0 [newStateNowMsg]).reason = none ∧
    (supLoop baseLikeBody 0 [newStateNowMsg]).events =
      [.deliver 0 newStateNowMsg, .handleCalled 0 newStateNowMsg] ∧
    Event.cleanupCalled 0 ∉ RunProcess (.last baseLikeBody) 0 [[newStateNowMsg]] ∧
    (supLoop baseLikeBody 0 [closeMsg]).reason = some .quit ∧
    (supLoop baseLikeBody 0 [closeMsg]).carryOn = false := by
  decide

/-- C3: a successor run is started (the entry event of process
`pid + 1` appears in the trace) if and only if initialisation
succeeded, the loop terminated through `Tick()` returning false with
nil error, the process implements `ProcessContinuer`, and
`NextProcess()` returned non-nil. -/
theorem c3_successor_start_iff (d : ProcDesc) (pid : Nat) (sched : List (List Msg)) :
    Event.runCalled (pid + 1) ∈ RunProcess d pid sched ↔
      (d.body.initErr = none ∧
        (supLoop d.body pid (sched.headD [])).reason = some .tickFalse ∧
        d.body.continuer = true ∧ d.next.isSome = true) :=
  runCalled_succ_mem_iff d pid sched

/-- Witness for C3 at a concrete chain hand-off. -/
theorem c3_witness : Event.runCalled 1 ∈ RunProcess dChainEx 0 [[Msg.tickPtr]] :=
  (c3_successor_start_iff dChainEx 0 [[Msg.tickPtr]]).mpr ⟨rfl, rfl, rfl, rfl⟩

/-- C4: whenever the supervisor loop exits, whatever the exit reason
(`quit`, `tickFalse`, `tickErr` or `handleErr`), `CleanupProcess()`
appears exactly once in the run's trace, and it appears before the
entry of any successor. -/
theorem c4_cleanup_exactly_once (d : ProcDesc) (pid : Nat) (sched : List (List Msg))
    (r : ExitReason) (hinit : d.body.initErr = none)
    (hre : (supLoop d.body pid (sched.headD [])).reason = some r) :
    (RunProcess d pid sched).count (.cleanupCalled pid) = 1 ∧
    ∃ pre post, RunProcess d pid sched = pre ++ .cleanupCalled pid :: post ∧
      Event.runCalled (pid + 1) ∉ pre := by
  rw [RunProcess_eq_runBody]
  exact runBody_cleanup_shape d.body pid _ _ r hinit hre (cleanup_not_mem_chainTr d pid sched)

/-- Witness for C4 at a concrete normal termination. -/
theorem c4_witness :
    (RunProcess dChainEx 0 [[Msg.tickPtr]]).count (.cleanupCalled 0) = 1 ∧
    ∃ pre post, RunProcess dChainEx 0 [[Msg.tickPtr]] =
        pre ++ .cleanupCalled 0 :: post ∧ Event.runCalled 1 ∉ pre :=
  c4_cleanup_exactly_once dChainEx 0 [[Msg.tickPtr]] .tickFalse rfl rfl

/-- C5: when `InitProcess()` fails, the run is aborted entirely: the
trace is just the entry, the failed call and the stderr diagnostic; the
process is never inserted into `_processes` or `_messengers`, no
message is delivered, and `CleanupProcess()` is never invoked.
`RunProcess` still returns normally (the error is not propagated). -/
theorem c5_init_failure_aborts (d : ProcDesc) (pid : Nat) (sched : List (List Msg))
    (v : Nat) (hinit : d.body.initErr = some v) :
    RunProcess d pid sched = [.runCalled pid, .initCalled pid, .initFailedDiag pid] ∧
    (∀ l, Event.registerProcess pid l ∉ RunProcess d pid sched) ∧
    (∀ l, Event.registerMessenger pid l ∉ RunProcess d pid sched) ∧
    Event.cleanupCalled pid ∉ RunProcess d pid sched ∧
    (∀ m, Event.deliver pid m ∉ RunProcess d pid sched) ∧
    Event.initFailedDiag pid ∈ RunProcess d pid sched := by
  have h : RunProcess d pid sched =
      [.runCalled pid, .initCalled pid, .initFailedDiag pid] := by
    rw [RunProcess_eq_runBody, runBody, hinit]
  rw [h]
  refine ⟨rfl, ?_, ?_, ?_, ?_, ?_⟩ <;> simp

/-- Witness for C5 at a concrete failing process. -/
theorem c5_witness :
    RunProcess dInitFail 0 [[Msg.tickPtr]] =
      [.runCalled 0, .initCalled 0, .initFailedDiag 0] ∧
    (∀ l, Event.registerProcess 0 l ∉ RunProcess dInitFail 0 [[Msg.tickPtr]]) ∧
    (∀ l, Event.registerMessenger 0 l ∉ RunProcess dInitFail 0 [[Msg.tickPtr]]) ∧
    Event.cleanupCalled 0 ∉ RunProcess dInitFail 0 [[Msg.tickPtr]] ∧
    (∀ m, Event.deliver 0 m ∉ RunProcess dInitFail 0 [[Msg.tickPtr]]) ∧
    Event.initFailedDiag 0 ∈ RunProcess dInitFail 0 [[Msg.tickPtr]] :=
  c5_init_failure_aborts dInitFail 0 [[Msg.tickPtr]] 7 rfl

/-- C6: a `*quit` message (as sent by `Close`) delivered to a process
that is alive and idle in its receive loop makes the loop exit at once
with reason Quit and `carryOn = false`; cleanup still runs, and no
successor is started even if the process implements
`ProcessContinuer`. -/
theorem c6_close_terminates_without_successor (d : ProcDesc) (pid : Nat)
    (pre ms : List Msg) (rest : List (List Msg)) (hinit : d.body.initErr = none)
    (halive : (supLoop d.body pid pre).reason = none) :
    (supLoop d.body pid (pre ++ closeMsg :: ms)).reason = some .quit ∧
    (supLoop d.body pid (pre ++ closeMsg :: ms)).carryOn = false ∧
    Event.cleanupCalled pid ∈ RunProcess d pid ((pre ++ closeMsg :: ms) :: rest) ∧
    Event.runCalled (pid + 1) ∉ RunProcess d pid ((pre ++ closeMsg :: ms) :: rest) := by
  simp only [supLoop] at halive ⊢
  have hstep := supLoopAux_append d.body pid pre (closeMsg :: ms) 0 0 halive
  have hq : ∀ tc hc, supLoopAux d.body pid tc hc (closeMsg :: ms) =
      ⟨[.deliver pid closeMsg], some .quit, false, tc, hc⟩ := by
    intro tc hc
    simp [supLoopAux, closeMsg, classify]
  have h1 : (supLoopAux d.body pid 0 0 (pre ++ closeMsg :: ms)).reason = some .quit := by
    rw [hstep, hq]
  have h2 : (supLoopAux d.body pid 0 0 (pre ++ closeMsg :: ms)).carryOn = false := by
    rw [hstep, hq]
  refine ⟨h1, h2, ?_, ?_⟩
  · exact cleanup_mem_runProcess d pid _ .quit hinit (by simpa using h1)
  · intro hmem
    rcases (runCalled_succ_mem_iff d pid _).mp hmem with ⟨_, hr2, _, _⟩
    simp only [List.headD_cons] at hr2
    rw [h1] at hr2
    simp at hr2

/-- Witness for C6: quit delivered as the first message of a
successor-capable process. -/
theorem c6_witness :
    (supLoop dChainEx.body 0 ([] ++ closeMsg :: [])).reason = some .quit ∧
    (supLoop dChainEx.body 0 ([] ++ closeMsg :: [])).carryOn = false ∧
    Event.cleanupCalled 0 ∈ RunProcess dChainEx 0 (([] ++ closeMsg :: []) :: []) ∧
    Event.runCalled 1 ∉ RunProcess dChainEx 0 (([] ++ closeMsg :: []) :: []) :=
  c6_close_terminates_without_successor dChainEx 0 [] [] [] rfl rfl

/-- C7: `NotifyProcess` to a process whose mailbox is absent from
`_messengers`, or whose mailbox channel is already closed, is a silent
no-op: the registry is unchanged, nothing is delivered, and no panic or
error reaches the caller (the deferred `recover()` absorbs the
closed-channel panic). -/
theorem c7_notify_silent_noop (r : Registry) (pid : Nat) (m : Msg)
    (h : lookupMessenger r pid = none ∨
      ∃ mb, lookupMessenger r pid = some mb ∧ mb.isClosed = true) :
    NotifyProcess r pid m = (r, false) := by
  rcases h with h | ⟨mb, hmb, hcl⟩
  · simp [NotifyProcess, notifyAttempt, h]
  · simp [NotifyProcess, notifyAttempt, hmb, chanSend, hcl]

/-- Witness for C7 at a registry with a closed mailbox. -/
theorem c7_witness : NotifyProcess regClosed 0 (Msg.app 1) = (regClosed, false) :=
  c7_notify_silent_noop regClosed 0 (Msg.app 1)
    (Or.inr ⟨⟨true, []⟩, by decide, rfl⟩)

/-- C8: a process that carries a configured non-nil `OnComplete`
callback (embedded `BaseProcess` value found by the reflective lookup)
has that callback invoked exactly once per exited run, immediately
after `CleanupProcess()` and before any successor is started,
regardless of the exit reason and of `carryOn`. -/
theorem c8_onComplete_after_cleanup (d : ProcDesc) (pid : Nat) (sched : List (List Msg))
    (cb : Nat) (r : ExitReason) (hinit : d.body.initErr = none)
    (hbp : d.body.baseProcess = some (some cb))
    (hre : (supLoop d.body pid (sched.headD [])).reason = some r) :
    (RunProcess d pid sched).count (.onCompleteCalled pid cb) = 1 ∧
    ∃ pre post, RunProcess d pid sched =
        pre ++ .cleanupCalled pid :: .onCompleteCalled pid cb :: post ∧
      Event.runCalled (pid + 1) ∉ pre := by
  rw [RunProcess_eq_runBody]
  exact runBody_onComplete_shape d.body pid _ _ cb r hinit hbp hre
    (onComplete_not_mem_chainTr d pid sched cb)

/-- Witness for C8 at a concrete process with callback id 5. -/
theorem c8_witness :
    (RunProcess dOnCompleteEx 0 [[Msg.tickPtr]]).count (.onCompleteCalled 0 5) = 1 ∧
    ∃ pre post, RunProcess dOnCompleteEx 0 [[Msg.tickPtr]] =
        pre ++ .cleanupCalled 0 :: .onCompleteCalled 0 5 :: post ∧
      Event.runCalled 1 ∉ pre :=
  c8_onComplete_after_cleanup dOnCompleteEx 0 [[Msg.tickPtr]] 5 .tickFalse rfl rfl rfl

/-- C9 counterexample: the claim that every Registry mutation is
serialized under the lock is false on the code: the very first run
already writes the `_messengers` map before taking `_processMutex`
(process.go:105). -/
theorem c9_counterexample :
    ¬ (∀ e ∈ RunProcess (.last baseLikeBody) 0 [[closeMsg]],
        isRegistryMutation e = true → underLock e = true) := by
  decide

/-- C9 amended: only the `_processes` ordered collection is mutated
under `_processMutex`; every `_messengers` map mutation happens outside
the critical section. -/
theorem c9_lock_amended (d : ProcDesc) (pid : Nat) (sched : List (List Msg)) (e : Event)
    (he : e ∈ RunProcess d pid sched) :
    (isProcessesMutation e = true → underLock e = true) ∧
    (isMessengersMutation e = true → underLock e = false) :=
  lock_discipline d pid sched e he

/-- Witness for the amended C9 at a concrete registration event. -/
theorem c9_witness :
    (isProcessesMutation (.registerProcess 0 true) = true →
      underLock (.registerProcess 0 true) = true) ∧
    (isMessengersMutation (.registerProcess 0 true) = true →
      underLock (.registerProcess 0 true) = false) :=
  c9_lock_amended (.last baseLikeBody) 0 [[closeMsg]] (.registerProcess 0 true) (by decide)

/-- C10: the supervisor loop classifies messages by dynamic type,
recognising only the pointer types as Quit and Tick; every other
value, including the struct values `quit\x7b\x7d` and `tick\x7b\x7d`, is an
application message and is forwarded to `HandleMessage`. -/
theorem c10_type_switch_dispatch :
    (∀ m : Msg, (classify m = .quit ↔ m = .quitPtr) ∧ (classify m = .tick ↔ m = .tickPtr)) ∧
    classify .quitValue = .application ∧ classify .tickValue = .application ∧
    (∀ (b : ProcBody) (pid tc hc : Nat) (ms : List Msg) (m : Msg),
      classify m = .application →
      ∃ t, (supLoopAux b pid tc hc (m :: ms)).events =
        .deliver pid m :: .handleCalled pid m :: t) := by
  refine ⟨?_, rfl, rfl, ?_⟩
  · intro m; cases m <;> simp [classify]
  · intro b pid tc hc ms m hm
    cases hhs : handleResult b hc with
    | some v => exact ⟨[.errDiag pid], by simp [supLoopAux, hm, hhs]⟩
    | none =>
      exact ⟨(supLoopAux b pid tc (hc + 1) ms).events, by simp [supLoopAux, hm, hhs]⟩

/-- Witness for C10: the struct value `quit\x7b\x7d` goes to
`HandleMessage`. -/
theorem c10_witness :
    ∃ t, (supLoopAux baseLikeBody 0 0 0 [Msg.quitValue]).events =
      .deliver 0 Msg.quitValue :: .handleCalled 0 Msg.quitValue :: t :=
  c10_type_switch_dispatch.2.2.2 baseLikeBody 0 0 0 [] Msg.quitValue rfl

end Allegory
